import Mathlib

/-!
PPCom line-of-sight connectivity engine.

A shallow embedding of `rotors_gazebo_plugins/src/gazebo_ppcom_plugin.cpp`.

Scalars (`double`) are modelled by exact rationals.  The square root used by
`Eigen`'s `norm()` is not a rational function, so it is taken as a parameter
`sqrt : ℚ → ℚ` of every definition that measures a distance.  The physics
engine's ray query (`ray->SetPoints(a, b); ray->GetIntersection(rtDist, _)`)
is taken as a parameter `ray : Vector3d → Vector3d → ℚ` giving `rtDist`.
-/

namespace PPCom

/-- A point or displacement of `Eigen::Vector3d`. -/
structure Vector3d where
  x : ℚ
  y : ℚ
  z : ℚ
  deriving DecidableEq, Repr

namespace Vector3d

/-- Componentwise sum, `a + b`. -/
def add (a b : Vector3d) : Vector3d := ⟨a.x + b.x, a.y + b.y, a.z + b.z⟩

/-- Componentwise difference, `a - b`. -/
def sub (a b : Vector3d) : Vector3d := ⟨a.x - b.x, a.y - b.y, a.z - b.z⟩

instance : Add Vector3d := ⟨add⟩
instance : Sub Vector3d := ⟨sub⟩

/-- The sum of the squared coefficients, `squaredNorm()`. -/
def squaredNorm (v : Vector3d) : ℚ := v.x * v.x + v.y * v.y + v.z * v.z

/-- The Euclidean length `norm()`, the square root of `squaredNorm()`. -/
def norm (sqrt : ℚ → ℚ) (v : Vector3d) : ℚ := sqrt v.squaredNorm

end Vector3d

/-- The two-argument `std::max(a, b)`, which is `(a < b) ? b : a`. -/
def stdMax (a b : ℚ) : ℚ := if a < b then b else a

/-- The assignment `P.back().z() = max(0.1, P.back().z())` on a vector of points. -/
def clampBack : List Vector3d → List Vector3d
  | [] => []
  | [p] => [{ p with z := stdMax 0.1 p.z }]
  | p :: q :: rest => p :: clampBack (q :: rest)

/-- The candidate antenna points `Pi` (and `Pj`) that `CheckLOS` builds for one endpoint. -/
def antennaPoints (p : Vector3d) (b : ℚ) : List Vector3d :=
  clampBack
    [ p + ⟨b, 0, 0⟩,
      p - ⟨b, 0, 0⟩,
      p + ⟨0, b, 0⟩,
      p - ⟨0, b, 0⟩,
      p + ⟨0, 0, b⟩,
      p - ⟨0, 0, b⟩ ]

/-- The test `rtDist >= ppDist - 0.1` that `CheckLOS` applies to one ray `pa → pb`. -/
def rayClear (sqrt : ℚ → ℚ) (ray : Vector3d → Vector3d → ℚ) (pa pb : Vector3d) : Bool :=
  decide (ray pa pb ≥ Vector3d.norm sqrt (pa - pb) - 0.1)

/-- `GazeboPPComPlugin::CheckLOS`: the two nested loops return `true` at the first
clear ray and `false` (the initial `los`) when every ray is blocked. -/
def CheckLOS (sqrt : ℚ → ℚ) (ray : Vector3d → Vector3d → ℚ)
    (pi : Vector3d) (bi : ℚ) (pj : Vector3d) (bj : ℚ) : Bool :=
  let Pi := antennaPoints pi bi
  let Pj := antennaPoints pj bj
  Pi.any fun pa => Pj.any fun pb => rayClear sqrt ray pa pb

/-- The part of `nav_msgs::Odometry` that the plugin reads or writes: the position
`pose.pose.position` and the covariance array `pose.covariance`. -/
structure Odometry where
  position : Vector3d
  covariance : List ℚ
  deriving DecidableEq, Repr

/-- One entry of the roster, `PPComNode`. -/
structure PPComNode where
  name : String
  role : String
  offset : ℚ
  odom_msg : Odometry
  odom_msg_received : Bool
  deriving DecidableEq, Repr

/-- The constructor `PPComNode(name_, role_, offset_)`: the covariance is set to `-1`
to mark that nothing was received yet. -/
def PPComNode.new (name_ role_ : String) (offset_ : ℚ) : PPComNode :=
  { name := name_
    role := role_
    offset := offset_
    odom_msg := ⟨⟨0, 0, 0⟩, List.replicate 36 (-1)⟩
    odom_msg_received := false }

/-- The members of `GazeboPPComPlugin` that `Load`, `OdomCallback` and `OnUpdate` use.
`vizAid_inited` is the flag `vizAid[ppcom_slf_idx_].inited` of the static marker store. -/
structure Plugin where
  ppcom_id_ : String
  ppcom_hz_ : ℚ
  ppcom_nodes_ : List PPComNode
  ppcom_slf_idx_ : Nat
  last_time_ : ℚ
  vizAid_inited : Bool
  deriving DecidableEq, Repr

/-- The member `Nnodes_`: `Load` sets it to `ppcom_nodes_.size()` and neither is resized
afterwards. -/
def Plugin.Nnodes_ (s : Plugin) : Nat := s.ppcom_nodes_.length

/-- The search loop of `Load` over the nodes from index `idx` on: `some i` when the loop
breaks at index `i` with `ppcom_id_in_network = true`, `none` when it runs to the end. -/
def findSelf (ppcom_id_ : String) : List PPComNode → Nat → Option Nat
  | [], _ => none
  | node :: rest, idx =>
    if ppcom_id_ = node.name then some idx else findSelf ppcom_id_ rest (idx + 1)

/-- The self-index resolution of `Load`: the search loop followed by
`assert(ppcom_id_in_network)`. -/
def resolveSelfIndex (ppcom_id_ : String) (ppcom_nodes_ : List PPComNode) : Except String Nat :=
  match findSelf ppcom_id_ ppcom_nodes_ 0 with
  | some idx => .ok idx
  | none => .error "assert(ppcom_id_in_network)"

/-- `GazeboPPComPlugin::Load` on the decoded roster records `name,role,offset`, the
configured identity and rate, and the simulation time at load. -/
def Load (ppcom_id_ : String) (ppcom_hz_ : ℚ) (records : List (String × String × ℚ))
    (SimTime : ℚ) : Except String Plugin :=
  let ppcom_nodes_ := records.map fun r => PPComNode.new r.1 r.2.1 r.2.2
  match resolveSelfIndex ppcom_id_ ppcom_nodes_ with
  | .error e => .error e
  | .ok idx =>
    .ok { ppcom_id_ := ppcom_id_
          ppcom_hz_ := ppcom_hz_
          ppcom_nodes_ := ppcom_nodes_.map fun node => { node with odom_msg_received := false }
          ppcom_slf_idx_ := idx
          last_time_ := SimTime
          vizAid_inited := false }

/-- `GazeboPPComPlugin::OdomCallback`: store the message and mark the node as received. -/
def OdomCallback (msg : Odometry) (node_idx : Nat) (s : Plugin) : Plugin :=
  match s.ppcom_nodes_[node_idx]? with
  | none => s
  | some node =>
    { s with ppcom_nodes_ :=
        s.ppcom_nodes_.set node_idx { node with odom_msg := msg, odom_msg_received := true } }

/-- A dense matrix (`Eigen::MatrixXd`, `vector<vector<bool>>`): its dimensions and its
coefficients. -/
structure Mat (α : Type) where
  rows : Nat
  cols : Nat
  coeff : Nat → Nat → α

namespace Mat

/-- A `rows × cols` matrix with every coefficient equal to `v`. -/
def fill {α : Type} (rows cols : Nat) (v : α) : Mat α := ⟨rows, cols, fun _ _ => v⟩

/-- Read access `m(i, j)` / `m[i][j]`. -/
def get {α : Type} (m : Mat α) (i j : Nat) : α := m.coeff i j

/-- Write access `m(i, j) = v` / `m[i][j] = v`. -/
def set {α : Type} (m : Mat α) (i j : Nat) (v : α) : Mat α :=
  { m with coeff := fun a b => if a = i ∧ b = j then v else m.coeff a b }

end Mat

/-- The two local matrices of a firing evaluation. -/
structure Mats where
  distMat : Mat ℚ
  los_check : Mat Bool

/-- The body of the inner loop of the matrix construction for the pair `(i, j)`;
`none` is a failed `assert(node_i.name != node_j.name)`. -/
def pairBody (sqrt : ℚ → ℚ) (ray : Vector3d → Vector3d → ℚ) (nodes : List PPComNode)
    (i : Nat) (node_i : PPComNode) (pi : Vector3d) (m : Mats) (j : Nat) : Option Mats :=
  match nodes[j]? with
  | none => none
  | some node_j =>
    if !node_j.odom_msg_received then some m
    else if node_i.name = node_j.name then none
    else
      let pj := node_j.odom_msg.position
      let v := CheckLOS sqrt ray pi node_i.offset pj node_j.offset
      let los_check := (m.los_check.set j i v).set i j v
      if los_check.get i j then
        let distMat := m.distMat.set i j (Vector3d.norm sqrt (pi - pj))
        let distMat := distMat.set j i (distMat.get i j)
        some ⟨distMat, los_check⟩
      else
        some ⟨m.distMat, los_check⟩

/-- The body of the outer loop of the matrix construction for the row `i`. -/
def rowBody (sqrt : ℚ → ℚ) (ray : Vector3d → Vector3d → ℚ) (nodes : List PPComNode)
    (m : Mats) (i : Nat) : Option Mats :=
  match nodes[i]? with
  | none => none
  | some node_i =>
    if !node_i.odom_msg_received then some m
    else
      let pi := node_i.odom_msg.position
      (List.range' (i + 1) (nodes.length - (i + 1))).foldlM (pairBody sqrt ray nodes i node_i pi) m

/-- The matrix construction of a firing evaluation: `distMat` starts as `-1 * Ones(N, N)`,
`los_check` as all `false`, and the pairs `i < j` are visited row by row. -/
def buildMatrices (sqrt : ℚ → ℚ) (ray : Vector3d → Vector3d → ℚ) (nodes : List PPComNode) :
    Option Mats :=
  let N := nodes.length
  (List.range N).foldlM (rowBody sqrt ray nodes) ⟨Mat.fill N N (-1 * 1), Mat.fill N N false⟩

/-- A colour of `std_msgs::ColorRGBA`. -/
structure ColorRGBA where
  r : ℚ
  g : ℚ
  b : ℚ
  a : ℚ
  deriving DecidableEq, Repr

/-- The colour of a segment between two nodes in line of sight. -/
def los_color : ColorRGBA := ⟨0.0, 1.0, 0.5, 1.0⟩

/-- The colour of a segment between two nodes with known poses and no line of sight. -/
def nlos_color : ColorRGBA := ⟨1.0, 0.65, 0.0, 1.0⟩

/-- The line list of the visualization marker: `marker.points` and `marker.colors`. -/
structure Marker where
  points : List Vector3d
  colors : List ColorRGBA
  deriving DecidableEq, Repr

/-- The body of the inner loop that fills the marker for the pair `(i, j)`. -/
def markerBody (nodes : List PPComNode) (los_check : Mat Bool) (i : Nat) (mk : Marker)
    (j : Nat) : Marker :=
  match nodes[i]?, nodes[j]? with
  | some node_i, some node_j =>
    if los_check.get i j then
      { points := mk.points ++ [node_i.odom_msg.position, node_j.odom_msg.position]
        colors := mk.colors ++ [los_color, los_color] }
    else if node_i.odom_msg_received && node_j.odom_msg_received then
      { points := mk.points ++ [node_i.odom_msg.position, node_j.odom_msg.position]
        colors := mk.colors ++ [nlos_color, nlos_color] }
    else mk
  | _, _ => mk

/-- The marker of a firing evaluation: the buffers are cleared and refilled pair by pair. -/
def buildMarker (nodes : List PPComNode) (los_check : Mat Bool) : Marker :=
  let N := nodes.length
  (List.range N).foldl
    (fun mk i => (List.range' (i + 1) (N - (i + 1))).foldl (markerBody nodes los_check i) mk)
    ⟨[], []⟩

/-- The message `rotors_comm::PPComTopology`. -/
structure PPComTopology where
  frame_id : String
  stamp : ℚ
  node_id : List String
  node_role : List String
  node_odom : List Odometry
  range : List ℚ
  deriving DecidableEq, Repr

/-- The loop that fills `topo_msg.range`: `distMat(i, j)` is pushed for `i < j`, row by row. -/
def buildRange (N : Nat) (distMat : Mat ℚ) : List ℚ :=
  (List.range N).foldl
    (fun range i =>
      (List.range' (i + 1) (N - (i + 1))).foldl (fun range j => range ++ [distMat.get i j]) range)
    []

/-- The topology message of a firing evaluation. -/
def buildTopology (now : ℚ) (nodes : List PPComNode) (distMat : Mat ℚ) : PPComTopology :=
  { frame_id := "world"
    stamp := now
    node_id := nodes.map fun node => node.name
    node_role := nodes.map fun node => node.role
    node_odom := nodes.map fun node => node.odom_msg
    range := buildRange nodes.length distMat }

/-- What `OnUpdate` reads from outside the plugin at one tick: the simulation time
`world_->SimTime()`, the clock `ros::Time::now()` and the ray query of the physics engine. -/
structure World where
  SimTime : ℚ
  now : ℚ
  ray : Vector3d → Vector3d → ℚ

/-- What one call of `OnUpdate` does besides updating the plugin. -/
inductive Outcome where
  /-- The call returned without evaluating. -/
  | idle
  /-- The own index is outside the roster (excluded by `Load`). -/
  | outOfRange
  /-- The evaluation started and `assert(node_i.name != node_j.name)` failed. -/
  | assertFailed
  /-- The evaluation built the two matrices and published the marker and the message. -/
  | published (distMat : Mat ℚ) (los_check : Mat Bool) (marker : Marker)
      (topo_msg : PPComTopology)

/-- `GazeboPPComPlugin::OnUpdate`. -/
def OnUpdate (sqrt : ℚ → ℚ) (w : World) (s : Plugin) : Plugin × Outcome :=
  let current_time := w.SimTime
  let dt := current_time - s.last_time_
  match s.ppcom_nodes_[s.ppcom_slf_idx_]? with
  | none => (s, .outOfRange)
  | some self =>
    if self.role ≠ "manager" then (s, .idle)
    else if dt > 1.0 / s.ppcom_hz_ then
      let s := { s with last_time_ := current_time }
      match buildMatrices sqrt w.ray s.ppcom_nodes_ with
      | none => (s, .assertFailed)
      | some m =>
        let marker := buildMarker s.ppcom_nodes_ m.los_check
        let topo_msg := buildTopology w.now s.ppcom_nodes_ m.distMat
        ({ s with vizAid_inited := true }, .published m.distMat m.los_check marker topo_msg)
    else (s, .idle)

/-- What happens to a loaded plugin: a simulation step or an odometry message. -/
inductive Event where
  | update (w : World)
  | odom (msg : Odometry) (node_idx : Nat)

/-- The simulation times at which an evaluation started along a run of events; the run
ends when the process is aborted. -/
def firings (sqrt : ℚ → ℚ) : Plugin → List Event → List ℚ
  | _, [] => []
  | s, .odom msg node_idx :: es => firings sqrt (OdomCallback msg node_idx s) es
  | s, .update w :: es =>
    match OnUpdate sqrt w s with
    | (s, .idle) => firings sqrt s es
    | (_, .outOfRange) => []
    | (_, .assertFailed) => [w.SimTime]
    | (s, .published _ _ _ _) => w.SimTime :: firings sqrt s es

/-- The candidate points as the specification words them: the floor of `0.1` on the
`+Z` candidate and none on the `-Z` candidate.  Compared with `antennaPoints`. -/
def claimedAntennaPoints (p : Vector3d) (b : ℚ) : List Vector3d :=
  [ p + ⟨b, 0, 0⟩,
    p - ⟨b, 0, 0⟩,
    p + ⟨0, b, 0⟩,
    p - ⟨0, b, 0⟩,
    { p + ⟨0, 0, b⟩ with z := stdMax 0.1 (p + ⟨0, 0, b⟩).z },
    p - ⟨0, 0, b⟩ ]

/-- A ray query in empty space: the ray reaches its end point. -/
def freeRay (sqrt : ℚ → ℚ) (a b : Vector3d) : ℚ := Vector3d.norm sqrt (a - b)

/-- A ray query in a world whose only body is a thin wall in the plane `x = 9.95`: a ray
that crosses the plane stops there, any other ray reports the far distance `1000`. -/
def wallRay (sqrt : ℚ → ℚ) (a b : Vector3d) : ℚ :=
  if (a.x < 9.95 ∧ 9.95 < b.x) ∨ (b.x < 9.95 ∧ 9.95 < a.x) then
    |9.95 - a.x| / |b.x - a.x| * Vector3d.norm sqrt (a - b)
  else 1000

/-- The verdict a firing evaluation is expected to record for the roster indices `a`, `b`:
both poses received and `CheckLOS` true on the two positions and offsets. -/
def pairVisible (sqrt : ℚ → ℚ) (ray : Vector3d → Vector3d → ℚ) (nodes : List PPComNode)
    (a b : Nat) : Bool :=
  match nodes[a]?, nodes[b]? with
  | some node_a, some node_b =>
    node_a.odom_msg_received && node_b.odom_msg_received &&
      CheckLOS sqrt ray node_a.odom_msg.position node_a.offset
        node_b.odom_msg.position node_b.offset
  | _, _ => false

/-- The distance a firing evaluation is expected to record for the roster indices `a`, `b`:
the distance between the two positions when the pair is visible, `-1` otherwise. -/
def pairRange (sqrt : ℚ → ℚ) (ray : Vector3d → Vector3d → ℚ) (nodes : List PPComNode)
    (a b : Nat) : ℚ :=
  match nodes[a]?, nodes[b]? with
  | some node_a, some node_b =>
    if pairVisible sqrt ray nodes a b then
      Vector3d.norm sqrt (node_a.odom_msg.position - node_b.odom_msg.position)
    else -1
  | _, _ => -1

/-- The loop invariant of the matrix construction: the diagonal is untouched, the pairs
`a < b` in `P` carry their final values in both triangles, and the others are untouched. -/
def Settled (sqrt : ℚ → ℚ) (ray : Vector3d → Vector3d → ℚ) (nodes : List PPComNode)
    (P : Nat → Nat → Prop) (m : Mats) : Prop :=
  (∀ a, m.los_check.get a a = false ∧ m.distMat.get a a = -1) ∧
  ∀ a b, a < b →
    (P a b →
      m.los_check.get a b = pairVisible sqrt ray nodes a b ∧
      m.los_check.get b a = pairVisible sqrt ray nodes a b ∧
      m.distMat.get a b = pairRange sqrt ray nodes a b ∧
      m.distMat.get b a = pairRange sqrt ray nodes a b) ∧
    (¬ P a b →
      m.los_check.get a b = false ∧ m.los_check.get b a = false ∧
      m.distMat.get a b = -1 ∧ m.distMat.get b a = -1)

/-- The four dimensions of the two matrices are all `N`. -/
def Mats.square (N : Nat) (m : Mats) : Prop :=
  m.distMat.rows = N ∧ m.distMat.cols = N ∧ m.los_check.rows = N ∧ m.los_check.cols = N

/-- The pairs `(a, b)` the matrix construction has visited when it is about to visit
`(i, l)`: the rows before `i`, and in row `i` the columns before `l`. -/
def pairsBefore (N i l : Nat) (a b : Nat) : Prop := b < N ∧ (a < i ∨ (a = i ∧ b < l))

/-- The roster of the worked example: the manager `A` and the follower `B`, both with
antenna offset `0.2`. -/
def exampleRoster : List (String × String × ℚ) :=
  [("A", "manager", 0.2), ("B", "follower", 0.2)]

/-- An odometry message that reports the position `p`. -/
def odomAt (p : Vector3d) : Odometry := ⟨p, List.replicate 36 0⟩

/-- The plugin of `A` loaded at time `0` with rate `10`, after `A` reported `(0,0,1)` and
`B` reported `(10,0,1)`. -/
def examplePlugin : Plugin :=
  { ppcom_id_ := "A"
    ppcom_hz_ := 10
    ppcom_nodes_ :=
      [ { name := "A", role := "manager", offset := 0.2, odom_msg := odomAt ⟨0, 0, 1⟩,
          odom_msg_received := true },
        { name := "B", role := "follower", offset := 0.2, odom_msg := odomAt ⟨10, 0, 1⟩,
          odom_msg_received := true } ]
    ppcom_slf_idx_ := 0
    last_time_ := 0
    vizAid_inited := false }

/-- The example plugin with a third node `C` that never reported a pose. -/
def examplePluginC : Plugin :=
  { examplePlugin with
    ppcom_nodes_ := examplePlugin.ppcom_nodes_ ++ [PPComNode.new "C" "follower" 0.2] }

/-- The plugin that runs on the follower `B` of the example roster. -/
def examplePluginB : Plugin := { examplePlugin with ppcom_id_ := "B", ppcom_slf_idx_ := 1 }

/-- The world of the worked example at simulation time `1`: empty space. -/
def exampleWorld : World := ⟨1, 0, freeRay Rat.sqrt⟩

/-- A roster in which two records carry the name `A`. -/
def duplicateRoster : List (String × String × ℚ) :=
  [("A", "manager", 0.2), ("A", "follower", 0.2)]

/-- The row `i` of the canonical pair enumeration of an `N`-node roster, read off a
coefficient function `g`: the values `g i j` for `j = i+1, ..., N-1`. -/
def pairRow (N : Nat) (g : Nat → Nat → ℚ) (i : Nat) : List ℚ :=
  (List.range' (i + 1) (N - (i + 1))).map (g i)

/-- The values of `g` on the pairs `(0,1), (0,2), ..., (0,N-1), (1,2), ..., (N-2,N-1)`,
in this order. -/
def canonicalPairs (N : Nat) (g : Nat → Nat → ℚ) : List ℚ :=
  (List.range N).flatMap (pairRow N g)

/-- A run of the example plugin: simulation steps at the times `1`, `1.05` and `1.2`, all
in empty space. -/
def exampleRun : List Event :=
  [ Event.update ⟨1, 0, freeRay Rat.sqrt⟩,
    Event.update ⟨1.05, 0, freeRay Rat.sqrt⟩,
    Event.update ⟨1.2, 0, freeRay Rat.sqrt⟩ ]

theorem Vector3d.add_def (a b : Vector3d) : a + b = ⟨a.x + b.x, a.y + b.y, a.z + b.z⟩ := rfl

theorem Vector3d.sub_def (a b : Vector3d) : a - b = ⟨a.x - b.x, a.y - b.y, a.z - b.z⟩ := rfl

theorem stdMax_eq_max (a b : ℚ) : stdMax a b = max a b := by
  unfold stdMax
  split
  · next h => exact (max_eq_right h.le).symm
  · next h => exact (max_eq_left (not_lt.mp h)).symm

theorem sqrt_hundred : Rat.sqrt 100 = 10 := by
  rw [show (100 : ℚ) = 10 * 10 by norm_num, Rat.sqrt_eq]; norm_num

theorem antennaPoints_eq (p : Vector3d) (b : ℚ) :
    antennaPoints p b =
      [ p + ⟨b, 0, 0⟩, p - ⟨b, 0, 0⟩, p + ⟨0, b, 0⟩, p - ⟨0, b, 0⟩, p + ⟨0, 0, b⟩,
        { p - ⟨0, 0, b⟩ with z := stdMax 0.1 (p - ⟨0, 0, b⟩).z } ] := by
  simp [antennaPoints, clampBack]

theorem rayClear_iff (sqrt : ℚ → ℚ) (ray : Vector3d → Vector3d → ℚ) (a b : Vector3d) :
    rayClear sqrt ray a b = true ↔ ray a b ≥ Vector3d.norm sqrt (a - b) - 0.1 := by
  simp [rayClear]

theorem CheckLOS_iff_exists (sqrt : ℚ → ℚ) (ray : Vector3d → Vector3d → ℚ)
    (pi : Vector3d) (bi : ℚ) (pj : Vector3d) (bj : ℚ) :
    CheckLOS sqrt ray pi bi pj bj = true ↔
      ∃ a ∈ antennaPoints pi bi, ∃ b ∈ antennaPoints pj bj, rayClear sqrt ray a b = true := by
  simp [CheckLOS, List.any_eq_true]

/-- C5 (as amended): when the verdict on a single ray does not depend on its direction,
`CheckLOS` gives the same answer with the two endpoints swapped. -/
theorem CheckLOS_swap_of_rayClear_symm (sqrt : ℚ → ℚ) (ray : Vector3d → Vector3d → ℚ)
    (hsymm : ∀ a b, rayClear sqrt ray a b = rayClear sqrt ray b a)
    (pi : Vector3d) (oi : ℚ) (pj : Vector3d) (oj : ℚ) :
    CheckLOS sqrt ray pi oi pj oj = CheckLOS sqrt ray pj oj pi oi := by
  rw [Bool.eq_iff_iff, CheckLOS_iff_exists, CheckLOS_iff_exists]
  constructor
  · rintro ⟨a, ha, b, hb, h⟩
    exact ⟨b, hb, a, ha, by rw [← hsymm]; exact h⟩
  · rintro ⟨a, ha, b, hb, h⟩
    exact ⟨b, hb, a, ha, by rw [← hsymm]; exact h⟩

/-- C5 (witness): in empty space every ray is clear in both directions, and the swap
law holds at `(0,0,1)`, `(10,0,1)` with offsets `0.2`. -/
theorem CheckLOS_swap_of_rayClear_symm_witness :
    (∀ a b, rayClear Rat.sqrt (freeRay Rat.sqrt) a b = rayClear Rat.sqrt (freeRay Rat.sqrt) b a) ∧
      CheckLOS Rat.sqrt (freeRay Rat.sqrt) ⟨0, 0, 1⟩ 0.2 ⟨10, 0, 1⟩ 0.2 =
        CheckLOS Rat.sqrt (freeRay Rat.sqrt) ⟨10, 0, 1⟩ 0.2 ⟨0, 0, 1⟩ 0.2 :=
  have h : ∀ a b, rayClear Rat.sqrt (freeRay Rat.sqrt) a b
      = rayClear Rat.sqrt (freeRay Rat.sqrt) b a := by
    intro a b
    have e : ∀ u v, rayClear Rat.sqrt (freeRay Rat.sqrt) u v = true := by
      intro u v
      rw [rayClear_iff]
      simp only [freeRay, ge_iff_le]
      linarith
    rw [e a b, e b a]
  ⟨h, CheckLOS_swap_of_rayClear_symm Rat.sqrt (freeRay Rat.sqrt) h ⟨0, 0, 1⟩ 0.2 ⟨10, 0, 1⟩ 0.2⟩

/-- C5 (counterexample): with a thin wall at `x = 9.95`, the node at `(0,0,1)` sees the
node at `(10,0,1)` (the ray stops `0.05` short of its end, within the tolerance), but
with the endpoints swapped the ray stops after `0.05` and the answer is `false`. -/
theorem CheckLOS_swap_counterexample :
    CheckLOS Rat.sqrt (wallRay Rat.sqrt) ⟨0, 0, 1⟩ 0 ⟨10, 0, 1⟩ 0 = true ∧
      CheckLOS Rat.sqrt (wallRay Rat.sqrt) ⟨10, 0, 1⟩ 0 ⟨0, 0, 1⟩ 0 = false := by
  have h1 : Rat.sqrt 100 = 10 := sqrt_hundred
  constructor
  · norm_num [CheckLOS, antennaPoints_eq, stdMax, rayClear, wallRay, Vector3d.norm,
      Vector3d.squaredNorm, Vector3d.add_def, Vector3d.sub_def, h1]
    rw [abs_of_pos (by norm_num : (0 : ℚ) < 199 / 20)]
    norm_num
  · norm_num [CheckLOS, antennaPoints_eq, stdMax, rayClear, wallRay, Vector3d.norm,
      Vector3d.squaredNorm, Vector3d.add_def, Vector3d.sub_def, h1]
    rw [abs_of_pos (by norm_num : (0 : ℚ) < 1 / 20)]
    norm_num

/-- C9 (as amended): `CheckLOS` builds the six candidates `p ± (b,0,0)`, `p ± (0,b,0)`,
`p ± (0,0,b)` in that order, and the floor of `0.1` is applied to the last one pushed,
the `-Z` candidate `p - (0,0,b)`; the `+Z` candidate is left as it is. -/
theorem antennaPoints_clamps_minus_z (p : Vector3d) (b : ℚ) :
    antennaPoints p b =
      [ p + ⟨b, 0, 0⟩, p - ⟨b, 0, 0⟩, p + ⟨0, b, 0⟩, p - ⟨0, b, 0⟩, p + ⟨0, 0, b⟩,
        ⟨p.x, p.y, max 0.1 (p.z - b)⟩ ] := by
  simp [antennaPoints_eq, stdMax_eq_max, Vector3d.sub_def]

/-- C9 (counterexample): at `p = (0,0,0)`, `b = 1` the code yields `(0,0,1)` and
`(0,0,0.1)` as the last two candidates, the claim `(0,0,1)` and `(0,0,-1)`. -/
theorem antennaPoints_claim_counterexample :
    antennaPoints ⟨0, 0, 0⟩ 1 =
        [⟨1, 0, 0⟩, ⟨-1, 0, 0⟩, ⟨0, 1, 0⟩, ⟨0, -1, 0⟩, ⟨0, 0, 1⟩, ⟨0, 0, 1 / 10⟩] ∧
      claimedAntennaPoints ⟨0, 0, 0⟩ 1 =
        [⟨1, 0, 0⟩, ⟨-1, 0, 0⟩, ⟨0, 1, 0⟩, ⟨0, -1, 0⟩, ⟨0, 0, 1⟩, ⟨0, 0, -1⟩] ∧
      antennaPoints ⟨0, 0, 0⟩ 1 ≠ claimedAntennaPoints ⟨0, 0, 0⟩ 1 := by
  refine ⟨?_, ?_, ?_⟩
  · norm_num [antennaPoints_eq, stdMax, Vector3d.add_def, Vector3d.sub_def]
  · norm_num [claimedAntennaPoints, stdMax, Vector3d.add_def, Vector3d.sub_def]
  · norm_num [antennaPoints_eq, claimedAntennaPoints, stdMax, Vector3d.add_def,
      Vector3d.sub_def]

/-- C10: `CheckLOS` has six candidates per endpoint and returns `true` exactly when one
of the `6 × 6` rays `a → b` has an intersection distance of at least the distance
between `a` and `b` minus `0.1`; otherwise it returns `false`. -/
theorem CheckLOS_true_iff_some_ray_clear (sqrt : ℚ → ℚ) (ray : Vector3d → Vector3d → ℚ)
    (pi : Vector3d) (bi : ℚ) (pj : Vector3d) (bj : ℚ) :
    (antennaPoints pi bi).length = 6 ∧ (antennaPoints pj bj).length = 6 ∧
    (CheckLOS sqrt ray pi bi pj bj = true ↔
      ∃ a ∈ antennaPoints pi bi, ∃ b ∈ antennaPoints pj bj,
        ray a b ≥ Vector3d.norm sqrt (a - b) - 0.1) ∧
    (CheckLOS sqrt ray pi bi pj bj = false ↔
      ∀ a ∈ antennaPoints pi bi, ∀ b ∈ antennaPoints pj bj,
        ¬ ray a b ≥ Vector3d.norm sqrt (a - b) - 0.1) := by
  have key := CheckLOS_iff_exists sqrt ray pi bi pj bj
  simp only [rayClear_iff] at key
  refine ⟨by simp [antennaPoints_eq], by simp [antennaPoints_eq], key, ?_⟩
  rw [← Bool.not_eq_true, key]
  push_neg
  rfl

theorem Settled.congr {sqrt : ℚ → ℚ} {ray : Vector3d → Vector3d → ℚ} {nodes : List PPComNode}
    {P Q : Nat → Nat → Prop} {m : Mats} (h : Settled sqrt ray nodes P m)
    (hPQ : ∀ a b, a < b → (P a b ↔ Q a b)) : Settled sqrt ray nodes Q m := by
  refine ⟨h.1, fun a b hab => ?_⟩
  rw [← hPQ a b hab]
  exact h.2 a b hab

theorem Mat.get_set {α : Type} (m : Mat α) (i j : Nat) (v : α) (a b : Nat) :
    (m.set i j v).get a b = if a = i ∧ b = j then v else m.get a b := rfl

theorem pairBody_settled {sqrt : ℚ → ℚ} {ray : Vector3d → Vector3d → ℚ}
    {nodes : List PPComNode} {P : Nat → Nat → Prop} {i l : Nat} {node_i : PPComNode}
    {m m1 : Mats} (hil : i < l) (hni : nodes[i]? = some node_i)
    (hri : node_i.odom_msg_received = true) (hP : ¬ P i l)
    (hb : pairBody sqrt ray nodes i node_i node_i.odom_msg.position m l = some m1)
    (hm : Settled sqrt ray nodes P m) :
    Settled sqrt ray nodes (fun a b => P a b ∨ (a = i ∧ b = l)) m1 := by
  unfold pairBody at hb
  split at hb
  · exact absurd hb (by simp)
  · next node_l hnl =>
    obtain ⟨hl1, hl2, hd1, hd2⟩ := (hm.2 i l hil).2 hP
    split_ifs at hb with hrl hname
    · -- node `l` has no pose: nothing is written
      cases hb
      have hrl' : node_l.odom_msg_received = false := by simpa using hrl
      have hvis : pairVisible sqrt ray nodes i l = false := by
        simp [pairVisible, hni, hnl, hrl']
      have hrange : pairRange sqrt ray nodes i l = -1 := by
        simp [pairRange, hni, hnl, hvis]
      refine ⟨hm.1, fun a b hab => ?_⟩
      by_cases hpair : a = i ∧ b = l
      · rw [hpair.1, hpair.2, hvis, hrange]
        exact ⟨fun _ => ⟨hl1, hl2, hd1, hd2⟩, fun hn => absurd (Or.inr ⟨rfl, rfl⟩) hn⟩
      · have := hm.2 a b hab
        simp only [hpair, or_false]
        exact this
    · -- both poses are known: the pair is tested and written in both triangles
      have hrl' : node_l.odom_msg_received = true := by simpa using hrl
      have hvis : pairVisible sqrt ray nodes i l =
          CheckLOS sqrt ray node_i.odom_msg.position node_i.offset
            node_l.odom_msg.position node_l.offset := by
        simp [pairVisible, hni, hnl, hri, hrl']
      have hrange : pairRange sqrt ray nodes i l =
          if CheckLOS sqrt ray node_i.odom_msg.position node_i.offset
            node_l.odom_msg.position node_l.offset then
            Vector3d.norm sqrt (node_i.odom_msg.position - node_l.odom_msg.position)
          else -1 := by
        simp [pairRange, hni, hnl, hvis]
      have hne : ¬ (i = l) := by omega
      cases hc : CheckLOS sqrt ray node_i.odom_msg.position node_i.offset
            node_l.odom_msg.position node_l.offset
      · simp only [hc, Mat.get_set, and_self, if_true, Bool.false_eq_true, if_false,
          Option.some.injEq] at hb
        subst hb
        rw [hc] at hvis
        simp only [hc, Bool.false_eq_true, if_false] at hrange
        refine ⟨fun a => ?_, fun a b hab => ?_⟩
        · have ha := hm.1 a
          have h1 : ¬ (a = i ∧ a = l) := by omega
          have h2 : ¬ (a = l ∧ a = i) := by omega
          simp only [Mat.get_set, h1, h2, if_false]
          exact ha
        · by_cases hpair : a = i ∧ b = l
          · rw [hpair.1, hpair.2, hvis, hrange]
            simp only [Mat.get_set, and_self, if_true, hl1, hl2, hd1, hd2, ite_self]
            simp
          · have := hm.2 a b hab
            have h1 : ¬ (a = l ∧ b = i) := by omega
            have h2 : ¬ (b = i ∧ a = l) := by omega
            have h3 : ¬ (b = l ∧ a = i) := by omega
            simp only [hpair, or_false, Mat.get_set, h1, h2, h3, if_false]
            exact this
      · simp only [hc, Mat.get_set, and_self, if_true, Option.some.injEq] at hb
        subst hb
        rw [hc] at hvis
        simp only [hc, if_true] at hrange
        refine ⟨fun a => ?_, fun a b hab => ?_⟩
        · have ha := hm.1 a
          have h1 : ¬ (a = i ∧ a = l) := by omega
          have h2 : ¬ (a = l ∧ a = i) := by omega
          simp only [Mat.get_set, h1, h2, if_false]
          exact ha
        · by_cases hpair : a = i ∧ b = l
          · rw [hpair.1, hpair.2, hvis, hrange]
            simp [Mat.get_set, hne]
          · have := hm.2 a b hab
            have h1 : ¬ (a = l ∧ b = i) := by omega
            have h2 : ¬ (b = i ∧ a = l) := by omega
            have h3 : ¬ (b = l ∧ a = i) := by omega
            simp only [hpair, or_false, Mat.get_set, h1, h2, h3, if_false]
            exact this

theorem pairVisible_received {sqrt : ℚ → ℚ} {ray : Vector3d → Vector3d → ℚ}
    {nodes : List PPComNode} {a b : Nat} (h : pairVisible sqrt ray nodes a b = true) :
    ∃ na nb, nodes[a]? = some na ∧ nodes[b]? = some nb ∧ na.odom_msg_received = true ∧
      nb.odom_msg_received = true ∧
      CheckLOS sqrt ray na.odom_msg.position na.offset nb.odom_msg.position nb.offset = true := by
  unfold pairVisible at h
  split at h
  · next na nb ha hb =>
    simp only [Bool.and_eq_true] at h
    exact ⟨na, nb, ha, hb, h.1.1, h.1.2, h.2⟩
  · exact absurd h (by simp)

theorem pairRange_of_not_visible {sqrt : ℚ → ℚ} {ray : Vector3d → Vector3d → ℚ}
    {nodes : List PPComNode} {a b : Nat} (h : pairVisible sqrt ray nodes a b = false) :
    pairRange sqrt ray nodes a b = -1 := by
  unfold pairRange
  split <;> simp [h]

theorem Settled.extend {sqrt : ℚ → ℚ} {ray : Vector3d → Vector3d → ℚ} {nodes : List PPComNode}
    {P Q : Nat → Nat → Prop} {m : Mats} (h : Settled sqrt ray nodes P m)
    (hPQ : ∀ a b, a < b → P a b → Q a b)
    (hnew : ∀ a b, a < b → Q a b → ¬ P a b → pairVisible sqrt ray nodes a b = false) :
    Settled sqrt ray nodes Q m := by
  refine ⟨h.1, fun a b hab => ⟨fun hq => ?_, fun hnq => ?_⟩⟩
  · by_cases hp : P a b
    · exact (h.2 a b hab).1 hp
    · have hv := hnew a b hab hq hp
      rw [hv, pairRange_of_not_visible hv]
      exact (h.2 a b hab).2 hp
  · exact (h.2 a b hab).2 fun hp => hnq (hPQ a b hab hp)

theorem innerLoop_settled {sqrt : ℚ → ℚ} {ray : Vector3d → Vector3d → ℚ}
    {nodes : List PPComNode} {i : Nat} {node_i : PPComNode} (hni : nodes[i]? = some node_i)
    (hri : node_i.odom_msg_received = true) :
    ∀ (n l : Nat) (m m' : Mats), i < l → l + n ≤ nodes.length →
      (List.range' l n).foldlM (pairBody sqrt ray nodes i node_i node_i.odom_msg.position) m
        = some m' →
      Settled sqrt ray nodes (pairsBefore nodes.length i l) m →
      Settled sqrt ray nodes (pairsBefore nodes.length i (l + n)) m' := by
  intro n
  induction n with
  | zero =>
    intro l m m' _ _ h hm
    simp only [List.range'_zero, List.foldlM_nil] at h
    cases h
    exact hm
  | succ n ih =>
    intro l m m' hil hln h hm
    rw [List.range'_succ, List.foldlM_cons] at h
    obtain ⟨m1, h1, h2⟩ := Option.bind_eq_some.mp h
    have hstep := pairBody_settled hil hni hri (by unfold pairsBefore; omega) h1 hm
    have hm1 : Settled sqrt ray nodes (pairsBefore nodes.length i (l + 1)) m1 :=
      hstep.congr fun a b _ => by unfold pairsBefore; omega
    have := ih (l + 1) m1 m' (by omega) (by omega) h2 hm1
    exact this.congr fun a b _ => by unfold pairsBefore; omega

theorem rowBody_settled {sqrt : ℚ → ℚ} {ray : Vector3d → Vector3d → ℚ}
    {nodes : List PPComNode} {k : Nat} {m m' : Mats} (hk : k < nodes.length)
    (h : rowBody sqrt ray nodes m k = some m')
    (hm : Settled sqrt ray nodes (pairsBefore nodes.length k 0) m) :
    Settled sqrt ray nodes (pairsBefore nodes.length (k + 1) 0) m' := by
  unfold rowBody at h
  split at h
  · exact absurd h (by simp)
  · next node_k hnk =>
    split_ifs at h with hrk
    · cases h
      have hrk' : node_k.odom_msg_received = false := by simpa using hrk
      refine hm.extend (fun a b _ => by unfold pairsBefore; omega) fun a b hab hq hp => ?_
      have hak : a = k := by unfold pairsBefore at hq hp; omega
      subst hak
      cases hv : pairVisible sqrt ray nodes a b
      · rfl
      · obtain ⟨na, nb, ha, _, hra, _⟩ := pairVisible_received hv
        rw [hnk] at ha
        cases ha
        rw [hrk'] at hra
        exact absurd hra (by simp)
    · have hrk' : node_k.odom_msg_received = true := by simpa using hrk
      have hstart : Settled sqrt ray nodes (pairsBefore nodes.length k (k + 1)) m :=
        hm.congr fun a b _ => by unfold pairsBefore; omega
      have := innerLoop_settled hnk hrk' (nodes.length - (k + 1)) (k + 1) m m' (by omega)
        (by omega) h hstart
      exact this.congr fun a b _ => by unfold pairsBefore; omega

theorem outerLoop_settled {sqrt : ℚ → ℚ} {ray : Vector3d → Vector3d → ℚ}
    {nodes : List PPComNode} :
    ∀ (n k : Nat) (m m' : Mats), k + n ≤ nodes.length →
      (List.range' k n).foldlM (rowBody sqrt ray nodes) m = some m' →
      Settled sqrt ray nodes (pairsBefore nodes.length k 0) m →
      Settled sqrt ray nodes (pairsBefore nodes.length (k + n) 0) m' := by
  intro n
  induction n with
  | zero =>
    intro k m m' _ h hm
    simp only [List.range'_zero, List.foldlM_nil] at h
    cases h
    exact hm
  | succ n ih =>
    intro k m m' hkn h hm
    rw [List.range'_succ, List.foldlM_cons] at h
    obtain ⟨m1, h1, h2⟩ := Option.bind_eq_some.mp h
    have hm1 := rowBody_settled (by omega) h1 hm
    have := ih (k + 1) m1 m' (by omega) h2 hm1
    exact this.congr fun a b _ => by unfold pairsBefore; omega

/-- The closed form of the matrices of a firing evaluation: every pair `a < b` inside the
roster carries `pairVisible` and `pairRange` in both triangles, and the diagonal is
untouched. -/
theorem buildMatrices_settled {sqrt : ℚ → ℚ} {ray : Vector3d → Vector3d → ℚ}
    {nodes : List PPComNode} {m : Mats} (h : buildMatrices sqrt ray nodes = some m) :
    Settled sqrt ray nodes (fun _ b => b < nodes.length) m := by
  unfold buildMatrices at h
  simp only [List.range_eq_range'] at h
  have hinit : Settled sqrt ray nodes (pairsBefore nodes.length 0 0)
      ⟨Mat.fill nodes.length nodes.length (-1 * 1), Mat.fill nodes.length nodes.length false⟩ := by
    refine ⟨fun a => ⟨rfl, by simp [Mat.fill, Mat.get]⟩, fun a b _ => ⟨fun hp => ?_, fun _ => ?_⟩⟩
    · unfold pairsBefore at hp; omega
    · simp [Mat.fill, Mat.get]
  have := outerLoop_settled nodes.length 0 _ m (by omega) h hinit
  exact this.congr fun a b _ => by unfold pairsBefore; omega

theorem foldlM_option_preserves {α β : Type} {f : β → α → Option β} {Q : β → Prop}
    (hf : ∀ b x b', Q b → f b x = some b' → Q b') :
    ∀ (l : List α) (b b' : β), Q b → l.foldlM f b = some b' → Q b' := by
  intro l
  induction l with
  | nil =>
    intro b b' hb h
    simp only [List.foldlM_nil] at h
    cases h
    exact hb
  | cons x xs ih =>
    intro b b' hb h
    rw [List.foldlM_cons] at h
    obtain ⟨b1, h1, h2⟩ := Option.bind_eq_some.mp h
    exact ih b1 b' (hf b x b1 hb h1) h2

theorem foldlM_option_isSome {α β : Type} {f : β → α → Option β} :
    ∀ (l : List α), (∀ x ∈ l, ∀ b, ∃ b', f b x = some b') →
      ∀ b, ∃ b', l.foldlM f b = some b' := by
  intro l
  induction l with
  | nil => intro _ b; exact ⟨b, rfl⟩
  | cons x xs ih =>
    intro hf b
    obtain ⟨b1, h1⟩ := hf x (List.mem_cons_self x xs) b
    obtain ⟨b', h2⟩ := ih (fun y hy => hf y (List.mem_cons_of_mem x hy)) b1
    exact ⟨b', by rw [List.foldlM_cons, h1]; exact h2⟩

theorem pairBody_square {sqrt : ℚ → ℚ} {ray : Vector3d → Vector3d → ℚ}
    {nodes : List PPComNode} {N i : Nat} {node_i : PPComNode} {pi : Vector3d} (m : Mats)
    (j : Nat) (m' : Mats) (hm : m.square N)
    (h : pairBody sqrt ray nodes i node_i pi m j = some m') : m'.square N := by
  unfold pairBody at h
  split at h
  · exact absurd h (by simp)
  · split_ifs at h with h1 h2
    · cases h; exact hm
    · simp only at h
      split_ifs at h <;> (cases h; exact hm)

theorem rowBody_square {sqrt : ℚ → ℚ} {ray : Vector3d → Vector3d → ℚ}
    {nodes : List PPComNode} {N : Nat} (m : Mats) (i : Nat) (m' : Mats) (hm : m.square N)
    (h : rowBody sqrt ray nodes m i = some m') : m'.square N := by
  unfold rowBody at h
  split at h
  · exact absurd h (by simp)
  · split_ifs at h
    · cases h; exact hm
    · exact foldlM_option_preserves pairBody_square _ m m' hm h

theorem buildMatrices_square {sqrt : ℚ → ℚ} {ray : Vector3d → Vector3d → ℚ}
    {nodes : List PPComNode} {m : Mats} (h : buildMatrices sqrt ray nodes = some m) :
    m.square nodes.length :=
  foldlM_option_preserves rowBody_square _ _ m ⟨rfl, rfl, rfl, rfl⟩ h

theorem names_ne_of_nodup {nodes : List PPComNode}
    (hnd : (nodes.map PPComNode.name).Nodup) {i j : Nat} {ni nj : PPComNode}
    (hi : nodes[i]? = some ni) (hj : nodes[j]? = some nj) (hij : i ≠ j) :
    ni.name ≠ nj.name := by
  obtain ⟨hi', rfl⟩ := List.getElem?_eq_some_iff.mp hi
  obtain ⟨hj', rfl⟩ := List.getElem?_eq_some_iff.mp hj
  intro heq
  have hi2 : i < (nodes.map PPComNode.name).length := by simpa using hi'
  have hj2 : j < (nodes.map PPComNode.name).length := by simpa using hj'
  have : (nodes.map PPComNode.name)[i] = (nodes.map PPComNode.name)[j] := by
    simpa using heq
  exact hij (hnd.getElem_inj_iff.mp this)

/-- With pairwise distinct node names no assertion fails and the matrices are built. -/
theorem buildMatrices_isSome (sqrt : ℚ → ℚ) (ray : Vector3d → Vector3d → ℚ)
    (nodes : List PPComNode) (hnd : (nodes.map PPComNode.name).Nodup) :
    ∃ m, buildMatrices sqrt ray nodes = some m := by
  unfold buildMatrices
  refine foldlM_option_isSome _ (fun i hi m => ?_) _
  have hiN : i < nodes.length := List.mem_range.mp hi
  unfold rowBody
  rw [List.getElem?_eq_getElem hiN]
  simp only
  split_ifs
  · exact ⟨m, rfl⟩
  · refine foldlM_option_isSome _ (fun j hj m1 => ?_) m
    obtain ⟨hj1, hj2⟩ := List.mem_range'_1.mp hj
    have hjN : j < nodes.length := by omega
    have hne := names_ne_of_nodup hnd (List.getElem?_eq_getElem hiN)
      (List.getElem?_eq_getElem hjN) (by omega : i ≠ j)
    unfold pairBody
    rw [List.getElem?_eq_getElem hjN]
    simp only [hne, if_false]
    split_ifs <;> exact ⟨_, rfl⟩

/-- What a publishing call of `OnUpdate` went through. -/
theorem OnUpdate_published_inv {sqrt : ℚ → ℚ} {w : World} {s s' : Plugin} {D : Mat ℚ}
    {L : Mat Bool} {mk : Marker} {tp : PPComTopology}
    (h : OnUpdate sqrt w s = (s', Outcome.published D L mk tp)) :
    ∃ self m, s.ppcom_nodes_[s.ppcom_slf_idx_]? = some self ∧ self.role = "manager" ∧
      1 / s.ppcom_hz_ < w.SimTime - s.last_time_ ∧
      buildMatrices sqrt w.ray s.ppcom_nodes_ = some m ∧ D = m.distMat ∧ L = m.los_check ∧
      mk = buildMarker s.ppcom_nodes_ m.los_check ∧
      tp = buildTopology w.now s.ppcom_nodes_ m.distMat ∧
      s' = { s with last_time_ := w.SimTime, vizAid_inited := true } := by
  unfold OnUpdate at h
  simp only at h
  split at h
  · cases h
  · next self hself =>
    split_ifs at h with hrole hdt
    · cases h
    · split at h
      · cases h
      · next m hm =>
        simp only [Prod.mk.injEq, Outcome.published.injEq] at h
        obtain ⟨hs, hD, hL, hmk, htp⟩ := h
        refine ⟨self, m, hself, by simpa using hrole, ?_, hm, hD.symm, hL.symm, hmk.symm,
          htp.symm, hs.symm⟩
        have : (1.0 : ℚ) = 1 := by norm_num
        rw [this] at hdt
        exact hdt
    · cases h

/-- A manager whose rate timer has elapsed and whose roster has pairwise distinct names
evaluates and publishes. -/
theorem OnUpdate_publishes (sqrt : ℚ → ℚ) (w : World) (s : Plugin) (self : PPComNode)
    (hself : s.ppcom_nodes_[s.ppcom_slf_idx_]? = some self) (hrole : self.role = "manager")
    (hdt : 1 / s.ppcom_hz_ < w.SimTime - s.last_time_)
    (hnd : (s.ppcom_nodes_.map PPComNode.name).Nodup) :
    ∃ D L mk tp, OnUpdate sqrt w s =
      ({ s with last_time_ := w.SimTime, vizAid_inited := true },
        Outcome.published D L mk tp) := by
  obtain ⟨m, hm⟩ := buildMatrices_isSome sqrt w.ray s.ppcom_nodes_ hnd
  refine ⟨m.distMat, m.los_check, buildMarker s.ppcom_nodes_ m.los_check,
    buildTopology w.now s.ppcom_nodes_ m.distMat, ?_⟩
  have h1 : (1.0 : ℚ) = 1 := by norm_num
  unfold OnUpdate
  simp only [hself, hrole, h1, ne_eq, not_true_eq_false, if_false, gt_iff_lt, hdt, if_true, hm]

theorem OnUpdate_published_settled {sqrt : ℚ → ℚ} {w : World} {s s' : Plugin} {D : Mat ℚ}
    {L : Mat Bool} {mk : Marker} {tp : PPComTopology}
    (h : OnUpdate sqrt w s = (s', Outcome.published D L mk tp)) :
    Settled sqrt w.ray s.ppcom_nodes_ (fun _ b => b < s.Nnodes_) ⟨D, L⟩ ∧
      Mats.square s.Nnodes_ ⟨D, L⟩ := by
  obtain ⟨self, m, _, _, _, hm, rfl, rfl, _⟩ := OnUpdate_published_inv h
  exact ⟨buildMatrices_settled hm, buildMatrices_square hm⟩

theorem examplePlugin_publishes (sqrt : ℚ → ℚ) (w : World) (hw : 1 / 10 < w.SimTime) :
    ∃ D L mk tp, OnUpdate sqrt w examplePlugin =
      ({ examplePlugin with last_time_ := w.SimTime, vizAid_inited := true },
        Outcome.published D L mk tp) :=
  OnUpdate_publishes sqrt w examplePlugin _ rfl rfl
    (by simpa [examplePlugin] using hw) (by decide)

theorem examplePluginC_publishes (sqrt : ℚ → ℚ) (w : World) (hw : 1 / 10 < w.SimTime) :
    ∃ D L mk tp, OnUpdate sqrt w examplePluginC =
      ({ examplePluginC with last_time_ := w.SimTime, vizAid_inited := true },
        Outcome.published D L mk tp) :=
  OnUpdate_publishes sqrt w examplePluginC _ rfl rfl
    (by simpa [examplePluginC, examplePlugin] using hw) (by decide)

theorem exampleWorld_time : (1 : ℚ) / 10 < exampleWorld.SimTime := by
  norm_num [exampleWorld]

/-- C1: the matrices built by a firing evaluation of `OnUpdate` are `N × N` and symmetric:
`los_check[i][j] = los_check[j][i]` and `distMat(i,j) = distMat(j,i)` for all `i ≠ j`,
for every roster, poses, received flags and ray query. -/
theorem OnUpdate_matrices_symmetric (sqrt : ℚ → ℚ) (w : World) (s s' : Plugin) (D : Mat ℚ)
    (L : Mat Bool) (mk : Marker) (tp : PPComTopology)
    (hfire : OnUpdate sqrt w s = (s', Outcome.published D L mk tp)) :
    Mats.square s.Nnodes_ ⟨D, L⟩ ∧
      ∀ i j, i ≠ j → L.get i j = L.get j i ∧ D.get i j = D.get j i := by
  obtain ⟨hset, hsq⟩ := OnUpdate_published_settled hfire
  refine ⟨hsq, fun i j hij => ?_⟩
  have key : ∀ a b, a < b → L.get a b = L.get b a ∧ D.get a b = D.get b a := by
    intro a b hab
    by_cases hb : b < s.Nnodes_
    · obtain ⟨h1, h2, h3, h4⟩ := (hset.2 a b hab).1 hb
      exact ⟨h1.trans h2.symm, h3.trans h4.symm⟩
    · obtain ⟨h1, h2, h3, h4⟩ := (hset.2 a b hab).2 hb
      exact ⟨h1.trans h2.symm, h3.trans h4.symm⟩
  rcases Nat.lt_or_gt_of_ne hij with h | h
  · exact key i j h
  · exact ⟨(key j i h).1.symm, (key j i h).2.symm⟩

/-- C1 (witness): the example plugin fires in the example world and its matrices are
symmetric. -/
theorem OnUpdate_matrices_symmetric_witness :
    ∃ s' D L mk tp, OnUpdate Rat.sqrt exampleWorld examplePlugin
        = (s', Outcome.published D L mk tp) ∧
      Mats.square 2 ⟨D, L⟩ ∧ ∀ i j, i ≠ j → L.get i j = L.get j i ∧ D.get i j = D.get j i := by
  obtain ⟨D, L, mk, tp, h⟩ := examplePlugin_publishes Rat.sqrt exampleWorld exampleWorld_time
  exact ⟨_, D, L, mk, tp, h, OnUpdate_matrices_symmetric Rat.sqrt exampleWorld examplePlugin _ D L
    mk tp h⟩

theorem published_missing_pose {sqrt : ℚ → ℚ} {w : World} {s s' : Plugin} {D : Mat ℚ}
    {L : Mat Bool} {mk : Marker} {tp : PPComTopology}
    (hfire : OnUpdate sqrt w s = (s', Outcome.published D L mk tp)) (i j : Nat) (hij : i ≠ j)
    (hmiss : (s.ppcom_nodes_[i]?).map PPComNode.odom_msg_received = some false ∨
      (s.ppcom_nodes_[j]?).map PPComNode.odom_msg_received = some false) :
    L.get i j = false ∧ D.get i j = -1 := by
  obtain ⟨hset, -⟩ := OnUpdate_published_settled hfire
  have hvis : ∀ a b, (a = i ∧ b = j) ∨ (a = j ∧ b = i) →
      pairVisible sqrt w.ray s.ppcom_nodes_ a b = false := by
    intro a b hab
    cases hv : pairVisible sqrt w.ray s.ppcom_nodes_ a b
    · rfl
    · obtain ⟨na, nb, ha, hb, hra, hrb, -⟩ := pairVisible_received hv
      rcases hab with ⟨rfl, rfl⟩ | ⟨rfl, rfl⟩ <;>
        rcases hmiss with hm | hm <;> simp [ha, hb, hra, hrb] at hm
  have key : ∀ a b, a < b → (a = i ∧ b = j) ∨ (a = j ∧ b = i) →
      (L.get a b = false ∧ D.get a b = -1) ∧ (L.get b a = false ∧ D.get b a = -1) := by
    intro a b hab hpair
    have hv := hvis a b hpair
    by_cases hb : b < s.Nnodes_
    · obtain ⟨h1, h2, h3, h4⟩ := (hset.2 a b hab).1 hb
      rw [hv] at h1 h2
      rw [pairRange_of_not_visible hv] at h3 h4
      exact ⟨⟨h1, h3⟩, ⟨h2, h4⟩⟩
    · obtain ⟨h1, h2, h3, h4⟩ := (hset.2 a b hab).2 hb
      exact ⟨⟨h1, h3⟩, ⟨h2, h4⟩⟩
  rcases Nat.lt_or_gt_of_ne hij with h | h
  · exact (key i j h (Or.inl ⟨rfl, rfl⟩)).1
  · exact (key j i h (Or.inr ⟨rfl, rfl⟩)).2

/-- C2: in a firing evaluation of `OnUpdate`, for `i ≠ j`, when node `i` or node `j` has
`odom_msg_received = false` then `los_check[i][j]` is `false` and `distMat(i,j)` is the
sentinel `-1`, whatever the ray query returns. -/
theorem OnUpdate_missing_pose_sentinel (sqrt : ℚ → ℚ) (w : World) (s s' : Plugin) (D : Mat ℚ)
    (L : Mat Bool) (mk : Marker) (tp : PPComTopology)
    (hfire : OnUpdate sqrt w s = (s', Outcome.published D L mk tp)) (i j : Nat) (hij : i ≠ j)
    (hmiss : (s.ppcom_nodes_[i]?).map PPComNode.odom_msg_received = some false ∨
      (s.ppcom_nodes_[j]?).map PPComNode.odom_msg_received = some false) :
    L.get i j = false ∧ D.get i j = -1 :=
  published_missing_pose hfire i j hij hmiss

/-- C2 (witness): with a third node `C` that never reported a pose, the entries of the
pair `(A, C)` are `false` and `-1`. -/
theorem OnUpdate_missing_pose_sentinel_witness :
    ∃ s' D L mk tp, OnUpdate Rat.sqrt exampleWorld examplePluginC
        = (s', Outcome.published D L mk tp) ∧
      (examplePluginC.ppcom_nodes_[2]?).map PPComNode.odom_msg_received = some false ∧
      L.get 0 2 = false ∧ D.get 0 2 = -1 := by
  obtain ⟨D, L, mk, tp, h⟩ := examplePluginC_publishes Rat.sqrt exampleWorld exampleWorld_time
  exact ⟨_, D, L, mk, tp, h, rfl, OnUpdate_missing_pose_sentinel Rat.sqrt exampleWorld
    examplePluginC _ D L mk tp h 0 2 (by decide) (Or.inr rfl)⟩

theorem CheckLOS_of_unobstructed (sqrt : ℚ → ℚ) (ray : Vector3d → Vector3d → ℚ)
    (hfree : ∀ a b, Vector3d.norm sqrt (a - b) ≤ ray a b)
    (pi : Vector3d) (bi : ℚ) (pj : Vector3d) (bj : ℚ) :
    CheckLOS sqrt ray pi bi pj bj = true := by
  rw [CheckLOS_iff_exists]
  refine ⟨pi + ⟨bi, 0, 0⟩, by simp [antennaPoints_eq], pj + ⟨bj, 0, 0⟩,
    by simp [antennaPoints_eq], ?_⟩
  rw [rayClear_iff]
  have := hfree (pi + ⟨bi, 0, 0⟩) (pj + ⟨bj, 0, 0⟩)
  simp only [ge_iff_le]
  linarith

/-- C3: in a firing evaluation of `OnUpdate`, for every pair `i < j` whose two nodes have a
received pose, `los_check[i][j]` is the result of `CheckLOS` on the two positions and
offsets, and `distMat(i,j)` is the distance between the two node positions when that
result is true and `-1` when it is false.  In particular, for the roster
`A,manager,0.2`, `B,follower,0.2` with `A` at `(0,0,1)`, `B` at `(10,0,1)` and no
obstruction, the evaluation publishes with the pair visible at distance `10`. -/
theorem OnUpdate_pair_entries (sqrt : ℚ → ℚ) :
    (∀ (w : World) (s s' : Plugin) (D : Mat ℚ) (L : Mat Bool) (mk : Marker)
        (tp : PPComTopology), OnUpdate sqrt w s = (s', Outcome.published D L mk tp) →
      ∀ (i j : Nat) (ni nj : PPComNode), i < j →
        s.ppcom_nodes_[i]? = some ni → s.ppcom_nodes_[j]? = some nj →
        ni.odom_msg_received = true → nj.odom_msg_received = true →
        L.get i j =
            CheckLOS sqrt w.ray ni.odom_msg.position ni.offset nj.odom_msg.position nj.offset ∧
          D.get i j =
            if CheckLOS sqrt w.ray ni.odom_msg.position ni.offset nj.odom_msg.position nj.offset
            then Vector3d.norm sqrt (ni.odom_msg.position - nj.odom_msg.position)
            else -1) ∧
    (sqrt 100 = 10 →
      ∀ (w : World) (hz t0 : ℚ) (s : Plugin) (msgA msgB : Odometry),
        (∀ a b, Vector3d.norm sqrt (a - b) ≤ w.ray a b) →
        Load "A" hz exampleRoster t0 = .ok s → 1 / hz < w.SimTime - t0 →
        msgA.position = ⟨0, 0, 1⟩ → msgB.position = ⟨10, 0, 1⟩ →
        ∃ s' D L mk tp,
          OnUpdate sqrt w (OdomCallback msgB 1 (OdomCallback msgA 0 s))
            = (s', Outcome.published D L mk tp) ∧
          L.get 0 1 = true ∧ D.get 0 1 = 10) := by
  have gen : ∀ (w : World) (s s' : Plugin) (D : Mat ℚ) (L : Mat Bool) (mk : Marker)
      (tp : PPComTopology), OnUpdate sqrt w s = (s', Outcome.published D L mk tp) →
      ∀ (i j : Nat) (ni nj : PPComNode), i < j →
        s.ppcom_nodes_[i]? = some ni → s.ppcom_nodes_[j]? = some nj →
        ni.odom_msg_received = true → nj.odom_msg_received = true →
        L.get i j =
            CheckLOS sqrt w.ray ni.odom_msg.position ni.offset nj.odom_msg.position nj.offset ∧
          D.get i j =
            if CheckLOS sqrt w.ray ni.odom_msg.position ni.offset nj.odom_msg.position nj.offset
            then Vector3d.norm sqrt (ni.odom_msg.position - nj.odom_msg.position)
            else -1 := by
    intro w s s' D L mk tp hfire i j ni nj hij hi hj hri hrj
    obtain ⟨hset, -⟩ := OnUpdate_published_settled hfire
    have hjN : j < s.Nnodes_ := (List.getElem?_eq_some_iff.mp hj).1
    obtain ⟨h1, -, h3, -⟩ := (hset.2 i j hij).1 hjN
    have hvis : pairVisible sqrt w.ray s.ppcom_nodes_ i j =
        CheckLOS sqrt w.ray ni.odom_msg.position ni.offset nj.odom_msg.position nj.offset := by
      simp [pairVisible, hi, hj, hri, hrj]
    refine ⟨h1.trans hvis, h3.trans ?_⟩
    simp [pairRange, hi, hj, hvis]
  refine ⟨gen, ?_⟩
  intro hsqrt w hz t0 s msgA msgB hfree hload hdt hA hB
  simp only [Load, resolveSelfIndex, findSelf, exampleRoster, PPComNode.new, List.map,
    if_true, Except.ok.injEq] at hload
  subst hload
  have hstate : OdomCallback msgB 1 (OdomCallback msgA 0
      { ppcom_id_ := "A", ppcom_hz_ := hz,
        ppcom_nodes_ :=
          [ { name := "A", role := "manager", offset := 0.2,
              odom_msg := ⟨⟨0, 0, 0⟩, List.replicate 36 (-1)⟩, odom_msg_received := false },
            { name := "B", role := "follower", offset := 0.2,
              odom_msg := ⟨⟨0, 0, 0⟩, List.replicate 36 (-1)⟩, odom_msg_received := false } ],
        ppcom_slf_idx_ := 0, last_time_ := t0, vizAid_inited := false }) =
      { ppcom_id_ := "A", ppcom_hz_ := hz,
        ppcom_nodes_ :=
          [ { name := "A", role := "manager", offset := 0.2, odom_msg := msgA,
              odom_msg_received := true },
            { name := "B", role := "follower", offset := 0.2, odom_msg := msgB,
              odom_msg_received := true } ],
        ppcom_slf_idx_ := 0, last_time_ := t0, vizAid_inited := false } := by
    simp [OdomCallback]
  rw [hstate]
  obtain ⟨D, L, mk, tp, h⟩ := OnUpdate_publishes sqrt w
    { ppcom_id_ := "A", ppcom_hz_ := hz,
      ppcom_nodes_ :=
        [ { name := "A", role := "manager", offset := 0.2, odom_msg := msgA,
            odom_msg_received := true },
          { name := "B", role := "follower", offset := 0.2, odom_msg := msgB,
            odom_msg_received := true } ],
      ppcom_slf_idx_ := 0, last_time_ := t0, vizAid_inited := false } _ rfl rfl hdt (by simp)
  refine ⟨_, D, L, mk, tp, h, ?_⟩
  have hlos := CheckLOS_of_unobstructed sqrt w.ray hfree msgA.position (0.2 : ℚ) msgB.position
    (0.2 : ℚ)
  obtain ⟨e1, e2⟩ := gen w _ _ D L mk tp h 0 1
    { name := "A", role := "manager", offset := 0.2, odom_msg := msgA, odom_msg_received := true }
    { name := "B", role := "follower", offset := 0.2, odom_msg := msgB, odom_msg_received := true }
    (by decide) rfl rfl rfl rfl
  refine ⟨e1.trans hlos, ?_⟩
  rw [e2]
  dsimp only
  rw [if_pos hlos, hA, hB]
  simp only [Vector3d.norm, Vector3d.squaredNorm, Vector3d.sub_def]
  norm_num
  exact hsqrt

/-- C3 (witness): the example plugin in empty space records the pair `(A, B)` as visible
at distance `10`. -/
theorem OnUpdate_pair_entries_witness :
    ∃ s' D L mk tp, OnUpdate Rat.sqrt exampleWorld examplePlugin
        = (s', Outcome.published D L mk tp) ∧ L.get 0 1 = true ∧ D.get 0 1 = 10 := by
  obtain ⟨s', D, L, mk, tp, h, hv⟩ :=
    (OnUpdate_pair_entries Rat.sqrt).2 sqrt_hundred exampleWorld 10 0 _ (odomAt ⟨0, 0, 1⟩)
      (odomAt ⟨10, 0, 1⟩) (fun a b => le_refl _) rfl (by norm_num [exampleWorld]) rfl rfl
  exact ⟨s', D, L, mk, tp, h, hv⟩

/-- C7: when the own node (index `ppcom_slf_idx_`) has a role other than `manager`,
`OnUpdate` returns at once at every simulation time: the whole plugin state is unchanged
(`last_time_` and the node poses included), no matrix is built and neither a topology
message nor a marker is published. -/
theorem OnUpdate_non_manager_idle (sqrt : ℚ → ℚ) (w : World) (s : Plugin) (self : PPComNode)
    (hself : s.ppcom_nodes_[s.ppcom_slf_idx_]? = some self) (hrole : self.role ≠ "manager") :
    OnUpdate sqrt w s = (s, Outcome.idle) := by
  unfold OnUpdate
  simp only [hself, hrole, ne_eq, not_false_eq_true, if_true]

/-- C7 (witness): the plugin of the follower `B` stays idle in the example world, long
after its rate timer has elapsed. -/
theorem OnUpdate_non_manager_idle_witness :
    examplePluginB.ppcom_nodes_[examplePluginB.ppcom_slf_idx_]?
        = some { name := "B", role := "follower", offset := 0.2, odom_msg := odomAt ⟨10, 0, 1⟩,
                 odom_msg_received := true } ∧
      OnUpdate Rat.sqrt exampleWorld examplePluginB = (examplePluginB, Outcome.idle) :=
  ⟨rfl, OnUpdate_non_manager_idle Rat.sqrt exampleWorld examplePluginB _ rfl (by decide)⟩

theorem findSelf_none_iff (ppcom_id_ : String) :
    ∀ (nodes : List PPComNode) (idx : Nat),
      findSelf ppcom_id_ nodes idx = none ↔ ∀ node ∈ nodes, node.name ≠ ppcom_id_ := by
  intro nodes
  induction nodes with
  | nil => intro idx; simp [findSelf]
  | cons node rest ih =>
    intro idx
    unfold findSelf
    split_ifs with h
    · simp [h]
    · simp only [ih, List.mem_cons, forall_eq_or_imp]
      exact ⟨fun hr => ⟨fun e => h e.symm, hr⟩, fun hr => hr.2⟩

theorem findSelf_some (ppcom_id_ : String) :
    ∀ (nodes : List PPComNode) (idx i : Nat), findSelf ppcom_id_ nodes idx = some i →
      idx ≤ i ∧ (nodes[i - idx]?).map PPComNode.name = some ppcom_id_ ∧
        ∀ k, k < i - idx → (nodes[k]?).map PPComNode.name ≠ some ppcom_id_ := by
  intro nodes
  induction nodes with
  | nil => intro idx i h; simp [findSelf] at h
  | cons node rest ih =>
    intro idx i h
    unfold findSelf at h
    split_ifs at h with hname
    · cases h
      refine ⟨le_refl _, by simp [hname], fun k hk => ?_⟩
      omega
    · obtain ⟨h1, h2, h3⟩ := ih (idx + 1) i h
      have hi : i - idx = (i - (idx + 1)) + 1 := by omega
      refine ⟨by omega, ?_, fun k hk => ?_⟩
      · rw [hi, List.getElem?_cons_succ]
        exact h2
      · cases k with
        | zero =>
          simp only [List.getElem?_cons_zero, Option.map_some', ne_eq, Option.some.injEq]
          exact fun e => hname e.symm
        | succ k =>
          rw [List.getElem?_cons_succ]
          exact h3 k (by omega)

/-- C8 (as amended): when a node of the roster carries the configured identity, the
self-index resolution of `Load` returns the first index whose node has that name, and it
is the only such index when the names of the roster are pairwise distinct; when no node
carries the identity, `assert(ppcom_id_in_network)` fails. -/
theorem resolveSelfIndex_first_match (ppcom_id_ : String) (nodes : List PPComNode) :
    ((∃ node ∈ nodes, node.name = ppcom_id_) →
      ∃ idx, resolveSelfIndex ppcom_id_ nodes = .ok idx ∧ idx < nodes.length ∧
        (nodes[idx]?).map PPComNode.name = some ppcom_id_ ∧
        (∀ k, k < idx → (nodes[k]?).map PPComNode.name ≠ some ppcom_id_) ∧
        ((nodes.map PPComNode.name).Nodup →
          ∀ k, (nodes[k]?).map PPComNode.name = some ppcom_id_ → k = idx)) ∧
    ((∀ node ∈ nodes, node.name ≠ ppcom_id_) →
      resolveSelfIndex ppcom_id_ nodes = .error "assert(ppcom_id_in_network)") := by
  constructor
  · rintro ⟨node, hmem, hname⟩
    cases hf : findSelf ppcom_id_ nodes 0 with
    | none => exact absurd hname ((findSelf_none_iff ppcom_id_ nodes 0).mp hf node hmem)
    | some idx =>
      obtain ⟨-, h2, h3⟩ := findSelf_some ppcom_id_ nodes 0 idx hf
      simp only [Nat.sub_zero] at h2 h3
      have hlt : idx < nodes.length := by
        by_contra hge
        rw [List.getElem?_eq_none (by omega)] at h2
        simp at h2
      refine ⟨idx, by simp [resolveSelfIndex, hf], hlt, h2, h3, fun hnd k hk => ?_⟩
      have hklt : k < nodes.length := by
        by_contra hge
        rw [List.getElem?_eq_none (by omega)] at hk
        simp at hk
      rw [List.getElem?_eq_getElem hklt] at hk
      rw [List.getElem?_eq_getElem hlt] at h2
      simp only [Option.map_some', Option.some.injEq] at hk h2
      by_contra hne
      exact names_ne_of_nodup hnd (List.getElem?_eq_getElem hklt) (List.getElem?_eq_getElem hlt)
        hne (hk.trans h2.symm)
  · intro habs
    have hf := (findSelf_none_iff ppcom_id_ nodes 0).mpr habs
    simp [resolveSelfIndex, hf]

/-- C8 (witness): in the example roster the identity `B` resolves to index `1`, and the
identity `Z` fails the assertion. -/
theorem resolveSelfIndex_first_match_witness :
    resolveSelfIndex "B" examplePlugin.ppcom_nodes_ = .ok 1 ∧
      resolveSelfIndex "Z" examplePlugin.ppcom_nodes_ = .error "assert(ppcom_id_in_network)" := by
  obtain ⟨h1, h2⟩ := resolveSelfIndex_first_match "B" examplePlugin.ppcom_nodes_
  obtain ⟨h3, h4⟩ := resolveSelfIndex_first_match "Z" examplePlugin.ppcom_nodes_
  exact ⟨rfl, h4 (by decide)⟩

/-- C8 (counterexample): `Load` accepts a roster in which two nodes are named `A`; for
the identity `A` it settles on index `0` although the node at index `1` carries the
same name, so the returned index is not the only one with that name. -/
theorem resolveSelfIndex_not_unique_counterexample :
    (Load "A" 10 duplicateRoster 0).toOption.map
        (fun s => (s.ppcom_slf_idx_, s.ppcom_nodes_.map PPComNode.name))
      = some (0, ["A", "A"]) := by
  rfl

theorem foldl_push_eq_append_map {α β : Type} (g : α → β) :
    ∀ (l : List α) (acc : List β), l.foldl (fun r j => r ++ [g j]) acc = acc ++ l.map g := by
  intro l
  induction l with
  | nil => intro acc; simp
  | cons x xs ih => intro acc; simp [ih]

theorem foldl_rows_eq_append_flatMap {α β : Type} (f : α → List β) :
    ∀ (l : List α) (acc : List β), l.foldl (fun r i => r ++ f i) acc = acc ++ l.flatMap f := by
  intro l
  induction l with
  | nil => intro acc; simp
  | cons x xs ih => intro acc; simp [ih]

theorem buildRange_eq_canonicalPairs (N : Nat) (D : Mat ℚ) :
    buildRange N D = canonicalPairs N D.get := by
  unfold buildRange canonicalPairs pairRow
  simp only [foldl_push_eq_append_map]
  rw [foldl_rows_eq_append_flatMap]
  simp

theorem triangle_succ (i : Nat) : (i + 1) * (i + 1 + 1) / 2 = i * (i + 1) / 2 + (i + 1) := by
  have h : (i + 1) * (i + 1 + 1) = i * (i + 1) + 2 * (i + 1) := by ring
  rw [h, Nat.add_mul_div_left _ _ (by norm_num : 0 < 2)]

theorem pairRow_length (N : Nat) (g : Nat → Nat → ℚ) (i : Nat) :
    (pairRow N g i).length = N - (i + 1) := by
  simp [pairRow]

theorem canonical_prefix_length (N : Nat) (g : Nat → Nat → ℚ) :
    ∀ i, i ≤ N → ((List.range i).flatMap (pairRow N g)).length + i * (i + 1) / 2 = i * N := by
  intro i
  induction i with
  | zero => intro _; simp
  | succ i ih =>
    intro hi
    have h := ih (by omega)
    rw [List.range_succ, List.flatMap_append, List.length_append, triangle_succ]
    simp only [List.flatMap_cons, List.flatMap_nil, List.append_nil, pairRow_length]
    have hm : (i + 1) * N = i * N + N := by ring
    omega

theorem canonicalPairs_length (N : Nat) (g : Nat → Nat → ℚ) :
    (canonicalPairs N g).length = N * (N - 1) / 2 := by
  have h := canonical_prefix_length N g N (le_refl N)
  unfold canonicalPairs
  cases N with
  | zero => simp
  | succ n =>
    rw [triangle_succ] at h
    have he := Nat.two_mul_div_two_of_even (Nat.even_mul_succ_self n)
    have hc : (n + 1) * (n + 1 - 1) = n * (n + 1) := by
      rw [Nat.add_sub_cancel]; ring
    have hsq : (n + 1) * (n + 1) = n * (n + 1) + (n + 1) := by ring
    rw [hc]
    omega

theorem canonicalPairs_getElem? (N : Nat) (g : Nat → Nat → ℚ) (i j : Nat) (hij : i < j)
    (hj : j < N) :
    (canonicalPairs N g)[i * N - i * (i + 1) / 2 + (j - i - 1)]? = some (g i j) := by
  have hpre := canonical_prefix_length N g i (by omega)
  have hsplit : List.range N = List.range i ++ (i :: List.range' (i + 1) (N - (i + 1))) := by
    rw [List.range_eq_range', List.range_eq_range', ← List.range'_succ]
    have : N = (N - i) + i := by omega
    conv_lhs => rw [this]
    rw [← List.range'_append]
    simp
    omega
  unfold canonicalPairs
  rw [hsplit, List.flatMap_append, List.flatMap_cons]
  have hidx : i * N - i * (i + 1) / 2 = ((List.range i).flatMap (pairRow N g)).length := by
    omega
  rw [hidx, List.getElem?_append_right (by omega), Nat.add_sub_cancel_left,
    List.getElem?_append_left (by rw [pairRow_length]; omega)]
  unfold pairRow
  rw [List.getElem?_map, List.getElem?_range' _ _ (by omega)]
  simp only [Option.map_some', Option.some.injEq]
  congr 1
  omega

/-- C4: the range list of the topology message of a firing evaluation has `N*(N-1)/2`
entries, enumerated in the order `(0,1), (0,2), ..., (0,N-1), (1,2), ..., (N-2,N-1)`; the
entry of the pair `i < j` sits at position `i*N - i*(i+1)/2 + (j-i-1)` and equals
`distMat(i,j)`, which is `-1` whenever the pair is not visible or one of its poses is
missing. -/
theorem OnUpdate_range_layout (sqrt : ℚ → ℚ) (w : World) (s s' : Plugin) (D : Mat ℚ)
    (L : Mat Bool) (mk : Marker) (tp : PPComTopology)
    (hfire : OnUpdate sqrt w s = (s', Outcome.published D L mk tp)) :
    tp.range.length = s.Nnodes_ * (s.Nnodes_ - 1) / 2 ∧
    tp.range = canonicalPairs s.Nnodes_ D.get ∧
    ∀ i j, i < j → j < s.Nnodes_ →
      tp.range[i * s.Nnodes_ - i * (i + 1) / 2 + (j - i - 1)]? = some (D.get i j) ∧
      (L.get i j = false → D.get i j = -1) ∧
      ((s.ppcom_nodes_[i]?).map PPComNode.odom_msg_received = some false ∨
        (s.ppcom_nodes_[j]?).map PPComNode.odom_msg_received = some false → D.get i j = -1) := by
  obtain ⟨hset, -⟩ := OnUpdate_published_settled hfire
  obtain ⟨self, m, -, -, -, -, hD, -, -, htp, -⟩ := OnUpdate_published_inv hfire
  have hrange : tp.range = canonicalPairs s.Nnodes_ D.get := by
    rw [htp, hD]
    exact buildRange_eq_canonicalPairs _ _
  refine ⟨by rw [hrange, canonicalPairs_length], hrange, fun i j hij hj => ⟨?_, ?_, ?_⟩⟩
  · rw [hrange]
    exact canonicalPairs_getElem? _ _ i j hij hj
  · intro hL
    obtain ⟨h1, -, h3, -⟩ := (hset.2 i j hij).1 hj
    rw [h3]
    exact pairRange_of_not_visible (h1.symm.trans hL)
  · intro hmiss
    exact (published_missing_pose hfire i j (by omega) hmiss).2

/-- C4 (witness): for the three-node example the range list is
`[distMat(0,1), distMat(0,2), distMat(1,2)]`, and the entries of the pairs with `C`, which
has no pose, are `-1`. -/
theorem OnUpdate_range_layout_witness :
    ∃ s' D L mk tp, OnUpdate Rat.sqrt exampleWorld examplePluginC
        = (s', Outcome.published D L mk tp) ∧
      tp.range = [D.get 0 1, D.get 0 2, D.get 1 2] ∧ D.get 0 2 = -1 ∧ D.get 1 2 = -1 := by
  obtain ⟨D, L, mk, tp, h⟩ := examplePluginC_publishes Rat.sqrt exampleWorld exampleWorld_time
  obtain ⟨-, h2, h3⟩ := OnUpdate_range_layout Rat.sqrt exampleWorld examplePluginC _ D L mk tp h
  refine ⟨_, D, L, mk, tp, h, ?_, ((h3 0 2 (by decide) (by decide)).2.2 (Or.inr rfl)),
    ((h3 1 2 (by decide) (by decide)).2.2 (Or.inr rfl))⟩
  rw [h2]
  rfl

/-- The three ways a call of `OnUpdate` ends: without evaluating and without touching the
plugin, or past the rate gate with `last_time_` set to the current time. -/
theorem OnUpdate_gate (sqrt : ℚ → ℚ) (w : World) (s : Plugin) :
    ((OnUpdate sqrt w s).1 = s ∧
        ((OnUpdate sqrt w s).2 = Outcome.idle ∨ (OnUpdate sqrt w s).2 = Outcome.outOfRange)) ∨
      (1 / s.ppcom_hz_ < w.SimTime - s.last_time_ ∧
        (OnUpdate sqrt w s).1.last_time_ = w.SimTime ∧
        (OnUpdate sqrt w s).1.ppcom_hz_ = s.ppcom_hz_ ∧
        ((OnUpdate sqrt w s).2 = Outcome.assertFailed ∨
          ∃ D L mk tp, (OnUpdate sqrt w s).2 = Outcome.published D L mk tp)) := by
  have h1 : (1.0 : ℚ) = 1 := by norm_num
  unfold OnUpdate
  simp only [h1]
  split
  · exact Or.inl ⟨rfl, Or.inr rfl⟩
  · split_ifs with hrole hdt
    · exact Or.inl ⟨rfl, Or.inl rfl⟩
    · split
      · exact Or.inr ⟨hdt, rfl, rfl, Or.inl rfl⟩
      · exact Or.inr ⟨hdt, rfl, rfl, Or.inr ⟨_, _, _, _, rfl⟩⟩
    · exact Or.inl ⟨rfl, Or.inl rfl⟩

theorem OdomCallback_last_time (msg : Odometry) (node_idx : Nat) (s : Plugin) :
    (OdomCallback msg node_idx s).last_time_ = s.last_time_ ∧
      (OdomCallback msg node_idx s).ppcom_hz_ = s.ppcom_hz_ := by
  unfold OdomCallback
  split <;> exact ⟨rfl, rfl⟩

theorem firings_chain (sqrt : ℚ → ℚ) :
    ∀ (es : List Event) (s : Plugin) (p : ℚ), p = 1 / s.ppcom_hz_ →
      List.Chain (fun a b => p < b - a) s.last_time_ (firings sqrt s es) := by
  intro es
  induction es with
  | nil => intro s p _; exact List.Chain.nil
  | cons e es ih =>
    intro s p hp
    cases e with
    | odom msg node_idx =>
      have h := ih (OdomCallback msg node_idx s) p
        (by rw [(OdomCallback_last_time msg node_idx s).2]; exact hp)
      rw [(OdomCallback_last_time msg node_idx s).1] at h
      exact h
    | update w =>
      have hgate := OnUpdate_gate sqrt w s
      unfold firings
      rcases hO : OnUpdate sqrt w s with ⟨s1, o⟩
      rw [hO] at hgate
      simp only at hgate
      cases o with
      | idle =>
        rcases hgate with ⟨hs, -⟩ | ⟨-, -, -, h | ⟨_, _, _, _, h⟩⟩
        · subst hs
          exact ih s1 p hp
        · cases h
        · cases h
      | outOfRange => exact List.Chain.nil
      | assertFailed =>
        rcases hgate with ⟨-, h | h⟩ | ⟨hdt, -, -, -⟩
        · cases h
        · cases h
        · exact List.Chain.cons (by rw [hp]; exact hdt) List.Chain.nil
      | published D L mk tp =>
        rcases hgate with ⟨-, h | h⟩ | ⟨hdt, hlast, hhz, -⟩
        · cases h
        · cases h
        · refine List.Chain.cons (by rw [hp]; exact hdt) ?_
          have h := ih s1 p (by rw [hhz]; exact hp)
          rw [hlast] at h
          exact h

theorem pairwise_gap_interval {p : ℚ} :
    ∀ (l : List ℚ), List.Pairwise (fun a b => p < b - a) l → ∀ lo : ℚ,
      (∀ t ∈ l, lo ≤ t ∧ t ≤ lo + p) → l.length ≤ 1 := by
  intro l hl lo hin
  match l, hl, hin with
  | [], _, _ => simp
  | [_], _, _ => simp
  | a :: b :: rest, hl, hin =>
    exfalso
    have hab : p < b - a := (List.pairwise_cons.mp hl).1 b (List.mem_cons_self b rest)
    have ha := hin a (List.mem_cons_self a _)
    have hb := hin b (List.mem_cons_of_mem a (List.mem_cons_self b rest))
    linarith

/-- C6: with `ppcom_hz_ > 0`, along every sequence of `OnUpdate` ticks (and odometry
messages) an evaluation starts only when the simulation time elapsed since `last_time_`,
the time of the last evaluation, is strictly greater than `1/ppcom_hz_`; so any two
evaluations are more than `1/ppcom_hz_` of simulated time apart and no interval of that
length contains more than one evaluation. -/
theorem firings_rate_gated (sqrt : ℚ → ℚ) (s : Plugin) (hhz : 0 < s.ppcom_hz_)
    (es : List Event) :
    (∀ w, (OnUpdate sqrt w s).2 = Outcome.assertFailed ∨
        (∃ D L mk tp, (OnUpdate sqrt w s).2 = Outcome.published D L mk tp) →
      1 / s.ppcom_hz_ < w.SimTime - s.last_time_ ∧ (OnUpdate sqrt w s).1.last_time_ = w.SimTime) ∧
    List.Chain (fun a b => 1 / s.ppcom_hz_ < b - a) s.last_time_ (firings sqrt s es) ∧
    List.Pairwise (fun a b => 1 / s.ppcom_hz_ < b - a) (firings sqrt s es) ∧
    ∀ lo : ℚ, ((firings sqrt s es).filter
      fun t => decide (lo ≤ t ∧ t ≤ lo + 1 / s.ppcom_hz_)).length ≤ 1 := by
  have hp : 0 < 1 / s.ppcom_hz_ := one_div_pos.mpr hhz
  have hchain := firings_chain sqrt es s (1 / s.ppcom_hz_) rfl
  haveI : IsTrans ℚ (fun a b => 1 / s.ppcom_hz_ < b - a) :=
    ⟨fun a b c hab hbc => by linarith⟩
  have hpair : List.Pairwise (fun a b => 1 / s.ppcom_hz_ < b - a) (firings sqrt s es) :=
    (List.pairwise_cons.mp hchain.pairwise).2
  refine ⟨fun w hw => ?_, hchain, hpair, fun lo => ?_⟩
  · rcases OnUpdate_gate sqrt w s with ⟨-, h | h⟩ | ⟨hdt, hlast, -, -⟩
    · rcases hw with hw | ⟨_, _, _, _, hw⟩ <;> rw [h] at hw <;> cases hw
    · rcases hw with hw | ⟨_, _, _, _, hw⟩ <;> rw [h] at hw <;> cases hw
    · exact ⟨hdt, hlast⟩
  · refine pairwise_gap_interval _ (hpair.filter _) lo fun t ht => ?_
    simpa using (List.mem_filter.mp ht).2

theorem OnUpdate_idle_of_not_elapsed (sqrt : ℚ → ℚ) (w : World) (s : Plugin) (self : PPComNode)
    (hself : s.ppcom_nodes_[s.ppcom_slf_idx_]? = some self)
    (hdt : ¬ 1 / s.ppcom_hz_ < w.SimTime - s.last_time_) :
    OnUpdate sqrt w s = (s, Outcome.idle) := by
  have h1 : (1.0 : ℚ) = 1 := by norm_num
  unfold OnUpdate
  simp only [hself, h1, gt_iff_lt, hdt, if_false, ite_self]

/-- C6 (witness): the example plugin at rate `10`, stepped at the times `1`, `1.05` and
`1.2`, evaluates at `1` and at `1.2` and not at `1.05`; the two evaluations are more than
`1/10` apart. -/
theorem firings_rate_gated_witness :
    0 < examplePlugin.ppcom_hz_ ∧
      firings Rat.sqrt examplePlugin exampleRun = [1, 1.2] ∧
      List.Pairwise (fun a b => 1 / examplePlugin.ppcom_hz_ < b - a)
        (firings Rat.sqrt examplePlugin exampleRun) := by
  have hhz : 0 < examplePlugin.ppcom_hz_ := by norm_num [examplePlugin]
  refine ⟨hhz, ?_, (firings_rate_gated Rat.sqrt examplePlugin hhz exampleRun).2.2.1⟩
  obtain ⟨D1, L1, mk1, tp1, h1⟩ := OnUpdate_publishes Rat.sqrt ⟨1, 0, freeRay Rat.sqrt⟩
    examplePlugin _ rfl rfl (by norm_num [examplePlugin]) (by decide)
  have h2 := OnUpdate_idle_of_not_elapsed Rat.sqrt ⟨1.05, 0, freeRay Rat.sqrt⟩
    { examplePlugin with last_time_ := 1, vizAid_inited := true } _ rfl
    (by norm_num [examplePlugin])
  obtain ⟨D3, L3, mk3, tp3, h3⟩ := OnUpdate_publishes Rat.sqrt ⟨1.2, 0, freeRay Rat.sqrt⟩
    { examplePlugin with last_time_ := 1, vizAid_inited := true } _ rfl rfl
    (by norm_num [examplePlugin]) (by decide)
  simp only [exampleRun, firings, h1, h2, h3]

end PPCom
